import Mathlib

/-!
Verification development for the `rsc` expression-calculator core.

The Rust sources under verification are `src/lexer.rs` (the tokenizer) and
`src/computer.rs` (the tree-walking evaluator).  The parser module
(`parser.rs`) and the concrete `f64` implementation of the `Num` trait are
referenced by `computer.rs` but are not part of the sources; where a claim
needs them they are modelled from the specification and marked as such.

Rust's `f64` literals and arithmetic are modelled with exact rationals `ℚ`;
every numeric value appearing in the claims is exactly representable, so the
model is faithful on all inputs the theorems touch.
-/

deriving instance DecidableEq for Except

namespace Rsc

/-- The `Operator` enum of `src/lexer.rs`. -/
inductive Operator where
  | plus
  | minus
  | star
  | slash
  | caret
  | lparen
  | rparen
deriving DecidableEq, Repr

/-- The `Token` enum of `src/lexer.rs`: a numeric literal or an operator. -/
inductive Token where
  | number (value : ℚ)
  | operator (op : Operator)
deriving DecidableEq, Repr

/-- The `LexerError` enum of `src/lexer.rs`. -/
inductive LexerError where
  | invalidCharacter (c : Char)
  | invalidNumber (s : String)
deriving DecidableEq, Repr

/-- Whether a character continues a numeric literal in `tokenize`
(`chars[i].is_digit(10) || chars[i] == '.'`). -/
def isNumChar (c : Char) : Bool :=
  c.isDigit || c = '.'

/-- Numeric value of a string of decimal digits. -/
def digitsVal (ds : List Char) : ℕ :=
  ds.foldl (fun a c => 10 * a + (c.toNat - 48)) 0

/-- The semantics of `number_string.parse::<f64>()` on the strings the scanner
of `src/lexer.rs` can produce (digits and dots only), with exact decimal
values: at most one dot and at least one digit are required, mirroring Rust's
acceptance of `"7"`, `"7."` and `".5"` and rejection of `"."` and `"1.2.3"`. -/
def parseDecimal (s : List Char) : Option ℚ :=
  let intPart := s.takeWhile (fun c => c != '.')
  let rest := s.dropWhile (fun c => c != '.')
  match rest with
  | [] => if intPart = [] then none else some (mkRat (digitsVal intPart) 1)
  | _ :: frac =>
    if frac.contains '.' then none
    else if intPart = [] && frac = [] then none
    else some (mkRat (digitsVal intPart * 10 ^ frac.length + digitsVal frac) (10 ^ frac.length))

/-- Flush a pending numeric literal in front of the already-computed rest of
the token stream, failing exactly when `number_string.parse()` fails in
`tokenize` of `src/lexer.rs`. -/
def pushNumber (pending : List Char) (rest : Except LexerError (List Token)) :
    Except LexerError (List Token) :=
  match pending with
  | [] => rest
  | _ :: _ =>
    match parseDecimal pending with
    | some n => Except.map (fun ts => Token.number n :: ts) rest
    | none => .error (.invalidNumber (String.mk pending))

/-- The scanning loop of `tokenize` in `src/lexer.rs`.  `pending` holds the
digits of the numeric literal currently being scanned (the `number_string` of
the inner `while`; empty when no literal is in progress).  Operator characters
emit their token; a whitespace character hits the `break` statement, ending
tokenization of the whole input with the tokens produced so far; any other
non-numeric character is an `InvalidCharacter` error. -/
def tokenizeGo (pending : List Char) : List Char → Except LexerError (List Token)
  | [] => pushNumber pending (.ok [])
  | c :: cs =>
    if c = '+' then pushNumber pending (Except.map (fun ts => Token.operator .plus :: ts) (tokenizeGo [] cs))
    else if c = '-' then pushNumber pending (Except.map (fun ts => Token.operator .minus :: ts) (tokenizeGo [] cs))
    else if c = '*' then pushNumber pending (Except.map (fun ts => Token.operator .star :: ts) (tokenizeGo [] cs))
    else if c = '/' then pushNumber pending (Except.map (fun ts => Token.operator .slash :: ts) (tokenizeGo [] cs))
    else if c = '^' then pushNumber pending (Except.map (fun ts => Token.operator .caret :: ts) (tokenizeGo [] cs))
    else if c = '(' then pushNumber pending (Except.map (fun ts => Token.operator .lparen :: ts) (tokenizeGo [] cs))
    else if c = ')' then pushNumber pending (Except.map (fun ts => Token.operator .rparen :: ts) (tokenizeGo [] cs))
    else if c.isWhitespace then pushNumber pending (.ok [])
    else if isNumChar c then tokenizeGo (pending ++ [c]) cs
    else pushNumber pending (.error (.invalidCharacter c))

/-- `tokenize` of `src/lexer.rs`. -/
def tokenize (input : String) : Except LexerError (List Token) :=
  tokenizeGo [] input.toList

/-- The `Function` enum of `parser.rs`, as matched exhaustively by
`compute_expr` in `src/computer.rs` (`Sqrt`, `Sin`, `Cos`, `Tan`, `Log`,
`Abs`) and listed in the specification's AST data model. -/
inductive FuncKind where
  | sqrt
  | sin
  | cos
  | tan
  | log
  | abs
deriving DecidableEq, Repr

/-- The `Expr` AST of `parser.rs`, exactly the variants `compute_expr` in
`src/computer.rs` matches on, instantiated at the rational model of the
numeric type parameter `T`. -/
inductive Expr where
  | constant (value : ℚ)
  | identifier (name : String)
  | neg (operand : Expr)
  | binOp (op : Operator) (l r : Expr)
  | function (f : FuncKind) (operand : Expr)
  | assignment (name : String) (value : Expr)
  | pow (base exponent : Expr)
  | factorial (operand : Expr)
deriving DecidableEq, Repr

/-- The `ComputeError` enum of `src/computer.rs`. -/
inductive ComputeError where
  | invalidFactorial
  | variableIsConstant (name : String)
  | unrecognizedIdentifier (name : String)
deriving DecidableEq, Repr

/-- Outcome of one evaluator call: `Ok`, `Err`, or a Rust panic (the
`unimplemented!()` arm of the `BinOp` match in `compute_expr`). -/
inductive CResult where
  | ok (value : ℚ)
  | err (e : ComputeError)
  | panicked
deriving DecidableEq, Repr

/-- The delegate operations of the `Num` trait of `src/computer.rs` whose
behaviour the evaluator hands to the numeric type (`sqrt`, `sin`, `cos`,
`tan`, `log`, `abs`, `pow`).  The evaluator's own logic never inspects their
results, so theorems hold for every choice of them. -/
structure NumOps where
  sqrt : ℚ → ℚ
  sin : ℚ → ℚ
  cos : ℚ → ℚ
  tan : ℚ → ℚ
  log : ℚ → ℚ
  abs : ℚ → ℚ
  pow : ℚ → ℚ → ℚ

/-- Modelled from the spec: the concrete numeric type of the examples (`f64`,
whose `Num` implementation is not under `src/`) supplies "a binary power
operation"; on the exactly representable values the claims use, `f64::powf`
agrees with exact exponentiation by an integer exponent, which is what this
model computes (and `0` elsewhere, a case no claim touches). -/
def ratPow (a b : ℚ) : ℚ :=
  if b.den = 1 then
    if 0 ≤ b.num then a ^ b.num.toNat else (a ^ (-b.num).toNat)⁻¹
  else 0

/-- Modelled from the spec: a concrete instance of the numeric delegate
operations, used for the concrete example evaluations.  Only `pow` is ever
reached by a claim; the trigonometric and logarithmic fields are arbitrary. -/
def ratOps : NumOps where
  sqrt := fun _ => 0
  sin := fun _ => 0
  cos := fun _ => 0
  tan := fun _ => 0
  log := fun _ => 0
  abs := fun q => |q|
  pow := ratPow

/-- The variable environment: `HashMap<String, (T, bool)>` of
`src/computer.rs`, modelled as an association list with at most one entry per
key; the `bool` is the is-constant flag. -/
def Env : Type := List (String × (ℚ × Bool))

instance : DecidableEq Env := by
  unfold Env
  infer_instance

/-- `HashMap::get`. -/
def lookupVar : Env → String → Option (ℚ × Bool)
  | [], _ => none
  | (k, v) :: rest, key => if k = key then some v else lookupVar rest key

/-- `HashMap::insert`: overwrite the existing binding for the key, or add a
new one. -/
def insertVar : Env → String → ℚ × Bool → Env
  | [], key, v => [(key, v)]
  | (k, w) :: rest, key, v =>
    if k = key then (k, v) :: rest else (k, w) :: insertVar rest key v

/-- The `Computer` struct of `src/computer.rs`. -/
structure Computer where
  «variables» : Env
deriving DecidableEq

/-- `Computer::new` of `src/computer.rs`: seed `"pi"` and `"e"` as constants. -/
def Computer.new (piVal eVal : ℚ) : Computer :=
  ⟨[("pi", (piVal, true)), ("e", (eVal, true))]⟩

/-- The `while factor > T::one()` loop of the `Factorial` arm of
`compute_expr` in `src/computer.rs`: repeatedly multiply `value` by `factor`
and decrement `factor`. -/
def factorialLoop (value factor : ℚ) : ℚ :=
  if 1 < factor then factorialLoop (value * factor) (factor - 1) else value
termination_by (⌊factor⌋).toNat
decreasing_by
  have h1 : (1 : ℤ) ≤ ⌊factor⌋ := by
    exact_mod_cast Int.le_floor.mpr (by exact_mod_cast le_of_lt (by assumption))
  have h2 : ⌊factor - 1⌋ = ⌊factor⌋ - 1 := by
    exact_mod_cast Int.floor_sub_one factor
  omega

/-- `Computer::compute_expr` of `src/computer.rs`, with the environment
threaded explicitly (`&mut self` becomes state passing) and the
`unimplemented!()` arm of the `BinOp` match modelled as `CResult.panicked`,
which propagates outward like a Rust panic. -/
def computeExpr (ops : NumOps) (c : Computer) : Expr → CResult × Computer
  | .constant num => (.ok num, c)
  | .identifier id =>
    match lookupVar c.variables id with
    | some value => (.ok value.1, c)
    | none => (.err (.unrecognizedIdentifier id), c)
  | .neg e =>
    match computeExpr ops c e with
    | (.ok v, c') => (.ok (-v), c')
    | r => r
  | .binOp op lexpr rexpr =>
    match computeExpr ops c lexpr with
    | (.ok lnum, c1) =>
      match computeExpr ops c1 rexpr with
      | (.ok rnum, c2) =>
        match op with
        | .plus => (.ok (lnum + rnum), c2)
        | .minus => (.ok (lnum - rnum), c2)
        | .star => (.ok (lnum * rnum), c2)
        | .slash => (.ok (lnum / rnum), c2)
        | _ => (.panicked, c2)
      | r => r
    | r => r
  | .function f e =>
    match computeExpr ops c e with
    | (.ok num, c') =>
      (.ok (match f with
        | .sqrt => ops.sqrt num
        | .sin => ops.sin num
        | .cos => ops.cos num
        | .tan => ops.tan num
        | .log => ops.log num
        | .abs => ops.abs num), c')
    | r => r
  | .assignment id e =>
    match computeExpr ops c e with
    | (.ok value, c') =>
      match lookupVar c'.variables id with
      | some (_, true) => (.err (.variableIsConstant id), c')
      | _ => (.ok value, ⟨insertVar c'.variables id (value, false)⟩)
    | r => r
  | .pow lexpr rexpr =>
    match computeExpr ops c lexpr with
    | (.ok lnum, c1) =>
      match computeExpr ops c1 rexpr with
      | (.ok rnum, c2) => (.ok (ops.pow lnum rnum), c2)
      | r => r
    | r => r
  | .factorial e =>
    match computeExpr ops c e with
    | (.ok value, c') =>
      if value < 0 ∨ ¬ value.isInt then (.err .invalidFactorial, c')
      else if value = 0 ∨ value = 1 then (.ok 1, c')
      else (.ok (factorialLoop value (value - 1)), c')
    | r => r

/-- `Computer::compute` of `src/computer.rs`: run `compute_expr` and, only on
success, write the result to the `"ans"` binding, marked constant. -/
def compute (ops : NumOps) (c : Computer) (e : Expr) : CResult × Computer :=
  match computeExpr ops c e with
  | (.ok n, c') => (.ok n, ⟨insertVar c'.variables "ans" (n, true)⟩)
  | r => r

/-- Modelled from the spec: the syntax-error kinds of the parser
(`parser.rs` is not under `src/`): "unmatched parenthesis, missing operand,
unexpected token, unknown function name, trailing tokens after a complete
parse".  `depthLimit` is a modelling artifact for the recursion fuel; the
fuel passed by `parse` is never exhausted on the finite inputs reasoned
about here. -/
inductive ParserError where
  | unmatchedParenthesis
  | missingOperand
  | unexpectedToken (t : Token)
  | unknownFunctionName (s : String)
  | trailingTokens (t : Token)
  | depthLimit
deriving DecidableEq, Repr

mutual

/-- Modelled from the spec: grammar level 2, *Additive* — "left-associative
chain of Multiplicative terms combined with `+`/`-`".  (`parser.rs` is not
under `src/`; for the token set the `src/lexer.rs` tokenizer produces there
are no identifier tokens, so the Assignment level above this one can never
apply and Additive is the entry level.) -/
def parseAdditive : ℕ → List Token → Except ParserError (Expr × List Token)
  | 0, _ => .error .depthLimit
  | f + 1, ts =>
    match parseMultiplicative f ts with
    | .ok (e, rest) => parseAdditiveRest f e rest
    | .error err => .error err

/-- Modelled from the spec: the left-associative continuation of the
Additive level. -/
def parseAdditiveRest : ℕ → Expr → List Token → Except ParserError (Expr × List Token)
  | 0, _, _ => .error .depthLimit
  | f + 1, e, .operator .plus :: rest =>
    match parseMultiplicative f rest with
    | .ok (e2, rest') => parseAdditiveRest f (.binOp .plus e e2) rest'
    | .error err => .error err
  | f + 1, e, .operator .minus :: rest =>
    match parseMultiplicative f rest with
    | .ok (e2, rest') => parseAdditiveRest f (.binOp .minus e e2) rest'
    | .error err => .error err
  | _ + 1, e, ts => .ok (e, ts)

/-- Modelled from the spec: grammar level 3, *Multiplicative* —
"left-associative chain of Unary terms combined with `*`/`/`". -/
def parseMultiplicative : ℕ → List Token → Except ParserError (Expr × List Token)
  | 0, _ => .error .depthLimit
  | f + 1, ts =>
    match parseUnary f ts with
    | .ok (e, rest) => parseMultiplicativeRest f e rest
    | .error err => .error err

/-- Modelled from the spec: the left-associative continuation of the
Multiplicative level. -/
def parseMultiplicativeRest : ℕ → Expr → List Token → Except ParserError (Expr × List Token)
  | 0, _, _ => .error .depthLimit
  | f + 1, e, .operator .star :: rest =>
    match parseUnary f rest with
    | .ok (e2, rest') => parseMultiplicativeRest f (.binOp .star e e2) rest'
    | .error err => .error err
  | f + 1, e, .operator .slash :: rest =>
    match parseUnary f rest with
    | .ok (e2, rest') => parseMultiplicativeRest f (.binOp .slash e e2) rest'
    | .error err => .error err
  | _ + 1, e, ts => .ok (e, ts)

/-- Modelled from the spec: grammar level 4, *Unary* — "optional leading `-`
(and `+` as a no-op) applied to a Power term". -/
def parseUnary : ℕ → List Token → Except ParserError (Expr × List Token)
  | 0, _ => .error .depthLimit
  | f + 1, .operator .minus :: rest =>
    match parseUnary f rest with
    | .ok (e, r) => .ok (.neg e, r)
    | .error err => .error err
  | f + 1, .operator .plus :: rest => parseUnary f rest
  | f + 1, ts => parsePower f ts

/-- Modelled from the spec: grammar level 5, *Power* — "right-associative
`base ^ exponent`, where exponent itself may be another Power".  The base is
the level below (a Primary: with the `src/lexer.rs` token set there is no
`!` token, so the intervening postfix-factorial level can never consume
anything). -/
def parsePower : ℕ → List Token → Except ParserError (Expr × List Token)
  | 0, _ => .error .depthLimit
  | f + 1, ts =>
    match parsePrimary f ts with
    | .ok (base, .operator .caret :: rest) =>
      match parsePower f rest with
      | .ok (e2, r) => .ok (.pow base e2, r)
      | .error err => .error err
    | .ok (e, r) => .ok (e, r)
    | .error err => .error err

/-- Modelled from the spec: grammar level 7, *Primary* — "a numeric literal
... or a parenthesized expression `( expr )`" (identifier and function-call
forms need identifier tokens, which the `src/lexer.rs` token set does not
contain). -/
def parsePrimary : ℕ → List Token → Except ParserError (Expr × List Token)
  | 0, _ => .error .depthLimit
  | _ + 1, .number n :: rest => .ok (.constant n, rest)
  | f + 1, .operator .lparen :: rest =>
    match parseAdditive f rest with
    | .ok (e, .operator .rparen :: r) => .ok (e, r)
    | .ok (_, _) => .error .unmatchedParenthesis
    | .error err => .error err
  | _ + 1, t :: _ => .error (.unexpectedToken t)
  | _ + 1, [] => .error .missingOperand

end

/-- Modelled from the spec: `parse(tokens) -> Expr | SyntaxError`, which
"consumes the entire token sequence; any leftover ... tokens after a complete
expression is a syntax error (trailing-input error)". -/
def parse (ts : List Token) : Except ParserError Expr :=
  match parseAdditive (8 * ts.length + 8) ts with
  | .ok (e, []) => .ok e
  | .ok (_, t :: _) => .error (.trailingTokens t)
  | .error err => .error err

/-- The `EvalError` enum used by `Computer::eval` in `src/computer.rs`
(declared in the crate root, which is not under `src/`; modelled from its use
there and from the spec's three disjoint error families). -/
inductive EvalError where
  | lexerError (e : LexerError)
  | parserError (e : ParserError)
  | computeError (e : ComputeError)
deriving DecidableEq, Repr

/-- Outcome of one `eval` call, with a panic possibility propagated from
`compute`. -/
inductive EResult where
  | ok (value : ℚ)
  | err (e : EvalError)
  | panicked
deriving DecidableEq, Repr

/-- `Computer::eval` of `src/computer.rs`: tokenize, parse, compute,
surfacing whichever stage failed.  (The source calls a two-argument
`tokenize` whose definition is not under `src/`; the `src/lexer.rs`
`tokenize` is used here, and the parser is the spec-modelled one above.) -/
def eval (ops : NumOps) (c : Computer) (input : String) : EResult × Computer :=
  match tokenize input with
  | .ok tokens =>
    match parse tokens with
    | .ok ast =>
      match compute ops c ast with
      | (.ok num, c') => (.ok num, c')
      | (.err ce, c') => (.err (.computeError ce), c')
      | (.panicked, c') => (.panicked, c')
    | .error pe => (.err (.parserError pe), c)
  | .error le => (.err (.lexerError le), c)

/-- The assignment-target names occurring in an expression: the only keys at
which evaluation of the expression can touch the environment. -/
def assignedNames : Expr → List String
  | .constant _ => []
  | .identifier _ => []
  | .neg e => assignedNames e
  | .binOp _ l r => assignedNames l ++ assignedNames r
  | .function _ e => assignedNames e
  | .assignment id e => id :: assignedNames e
  | .pow l r => assignedNames l ++ assignedNames r
  | .factorial e => assignedNames e

/-- The operators the `BinOp` match of `compute_expr` implements; the
remaining ones fall into its `unimplemented!()` arm. -/
def isArithOp : Operator → Bool
  | .plus => true
  | .minus => true
  | .star => true
  | .slash => true
  | _ => false

/-- Every `BinOp` node of the expression carries an implemented operator. -/
def binopsValid : Expr → Bool
  | .constant _ => true
  | .identifier _ => true
  | .neg e => binopsValid e
  | .binOp op l r => isArithOp op && (binopsValid l && binopsValid r)
  | .function _ e => binopsValid e
  | .assignment _ e => binopsValid e
  | .pow l r => binopsValid l && binopsValid r
  | .factorial e => binopsValid e

/-- One public operation on a `Computer`: a `compute` call on an AST or an
`eval` call on input text. -/
inductive CompOp where
  | runCompute (e : Expr)
  | runEval (input : String)

/-- The environment after a sequence of public operations. -/
def runOps (ops : NumOps) (c : Computer) : List CompOp → Computer
  | [] => c
  | .runCompute e :: rest => runOps ops (compute ops c e).2 rest
  | .runEval s :: rest => runOps ops (eval ops c s).2 rest

/-! ### Helper lemmas about the environment -/

theorem lookupVar_insertVar_self (env : Env) (k : String) (v : ℚ × Bool) :
    lookupVar (insertVar env k v) k = some v := by
  induction env with
  | nil => simp [insertVar, lookupVar]
  | cons hd tl ih =>
    obtain ⟨k', w⟩ := hd
    by_cases h : k' = k <;> simp [insertVar, lookupVar, h, ih]

theorem lookupVar_insertVar_ne (env : Env) (k key : String) (v : ℚ × Bool)
    (h : k ≠ key) : lookupVar (insertVar env k v) key = lookupVar env key := by
  induction env with
  | nil => simp [insertVar, lookupVar, h]
  | cons hd tl ih =>
    obtain ⟨k', w⟩ := hd
    by_cases h' : k' = k
    · subst h'; simp [insertVar, lookupVar, h]
    · simp [insertVar, lookupVar, h', ih]

/-! ### Helper lemmas about `compute_expr` -/

/-- Evaluation never changes the environment at a key that is not an
assignment target of the expression. -/
theorem computeExpr_lookup_of_not_assigned (ops : NumOps) (k : String) :
    ∀ (e : Expr) (c : Computer), k ∉ assignedNames e →
      lookupVar ((computeExpr ops c e).2).variables k = lookupVar c.variables k := by
  intro e
  induction e with
  | constant n => intro c _; rfl
  | identifier id =>
    intro c _
    rcases h : lookupVar c.variables id with _ | v <;> simp [computeExpr, h]
  | neg e ih =>
    intro c h
    have H := ih c (by simpa [assignedNames] using h)
    rcases he : computeExpr ops c e with ⟨r, c'⟩
    rw [he] at H
    cases r <;> simp [computeExpr, he] <;> exact H
  | binOp op l r ihl ihr =>
    intro c h
    simp only [assignedNames, List.mem_append] at h
    push_neg at h
    rcases hl : computeExpr ops c l with ⟨rl, c1⟩
    have Hl := ihl c h.1
    rw [hl] at Hl
    cases rl with
    | ok v =>
      rcases hr : computeExpr ops c1 r with ⟨rr, c2⟩
      have Hr := ihr c1 h.2
      rw [hr] at Hr
      cases rr with
      | ok w => cases op <;> simp [computeExpr, hl, hr, Hr, Hl]
      | err e' => simp [computeExpr, hl, hr, Hr, Hl]
      | panicked => simp [computeExpr, hl, hr, Hr, Hl]
    | err e' => simp [computeExpr, hl, Hl]
    | panicked => simp [computeExpr, hl, Hl]
  | function f e ih =>
    intro c h
    have H := ih c (by simpa [assignedNames] using h)
    rcases he : computeExpr ops c e with ⟨r, c'⟩
    rw [he] at H
    cases r <;> simp [computeExpr, he] <;> exact H
  | assignment id e ih =>
    intro c h
    simp only [assignedNames, List.mem_cons] at h
    push_neg at h
    obtain ⟨hne, hmem⟩ := h
    rcases he : computeExpr ops c e with ⟨r, c'⟩
    have H := ih c hmem
    rw [he] at H
    cases r with
    | ok v =>
      rcases hid : lookupVar c'.variables id with _ | ⟨w, b⟩
      · simp [computeExpr, he, hid, lookupVar_insertVar_ne _ _ _ _ (Ne.symm hne), H]
      · cases b
        · simp [computeExpr, he, hid, lookupVar_insertVar_ne _ _ _ _ (Ne.symm hne), H]
        · simp [computeExpr, he, hid, H]
    | err e' => simp [computeExpr, he, H]
    | panicked => simp [computeExpr, he, H]
  | pow l r ihl ihr =>
    intro c h
    simp only [assignedNames, List.mem_append] at h
    push_neg at h
    rcases hl : computeExpr ops c l with ⟨rl, c1⟩
    have Hl := ihl c h.1
    rw [hl] at Hl
    cases rl with
    | ok v =>
      rcases hr : computeExpr ops c1 r with ⟨rr, c2⟩
      have Hr := ihr c1 h.2
      rw [hr] at Hr
      cases rr <;> simp [computeExpr, hl, hr, Hr, Hl]
    | err e' => simp [computeExpr, hl, Hl]
    | panicked => simp [computeExpr, hl, Hl]
  | factorial e ih =>
    intro c h
    have H := ih c (by simpa [assignedNames] using h)
    rcases he : computeExpr ops c e with ⟨r, c'⟩
    rw [he] at H
    cases r with
    | ok v =>
      simp only [computeExpr, he]
      split_ifs <;> simpa using H
    | err e' => simp [computeExpr, he, H]
    | panicked => simp [computeExpr, he, H]

/-- An expression containing no assignment leaves the environment untouched,
as a whole. -/
theorem computeExpr_env_of_no_assign (ops : NumOps) :
    ∀ (e : Expr) (c : Computer), assignedNames e = [] →
      (computeExpr ops c e).2 = c := by
  intro e
  induction e with
  | constant n => intro c _; rfl
  | identifier id =>
    intro c _
    rcases h : lookupVar c.variables id with _ | v <;> simp [computeExpr, h]
  | neg e ih =>
    intro c h
    have H := ih c (by simpa [assignedNames] using h)
    rcases he : computeExpr ops c e with ⟨r, c'⟩
    rw [he] at H
    cases r <;> simp [computeExpr, he] <;> exact H
  | binOp op l r ihl ihr =>
    intro c h
    simp only [assignedNames, List.append_eq_nil] at h
    rcases hl : computeExpr ops c l with ⟨rl, c1⟩
    have Hl : c1 = c := by have t := ihl c h.1; rw [hl] at t; exact t
    rw [Hl] at hl
    cases rl with
    | ok v =>
      rcases hr : computeExpr ops c r with ⟨rr, c2⟩
      have Hr : c2 = c := by have t := ihr c h.2; rw [hr] at t; exact t
      rw [Hr] at hr
      cases rr with
      | ok w => cases op <;> simp [computeExpr, hl, hr]
      | err e' => simp [computeExpr, hl, hr]
      | panicked => simp [computeExpr, hl, hr]
    | err e' => simp [computeExpr, hl]
    | panicked => simp [computeExpr, hl]
  | function f e ih =>
    intro c h
    have H := ih c (by simpa [assignedNames] using h)
    rcases he : computeExpr ops c e with ⟨r, c'⟩
    rw [he] at H
    cases r <;> simp [computeExpr, he] <;> exact H
  | assignment id e ih =>
    intro c h
    simp [assignedNames] at h
  | pow l r ihl ihr =>
    intro c h
    simp only [assignedNames, List.append_eq_nil] at h
    rcases hl : computeExpr ops c l with ⟨rl, c1⟩
    have Hl : c1 = c := by have t := ihl c h.1; rw [hl] at t; exact t
    rw [Hl] at hl
    cases rl with
    | ok v =>
      rcases hr : computeExpr ops c r with ⟨rr, c2⟩
      have Hr : c2 = c := by have t := ihr c h.2; rw [hr] at t; exact t
      rw [Hr] at hr
      cases rr <;> simp [computeExpr, hl, hr]
    | err e' => simp [computeExpr, hl]
    | panicked => simp [computeExpr, hl]
  | factorial e ih =>
    intro c h
    have H := ih c (by simpa [assignedNames] using h)
    rcases he : computeExpr ops c e with ⟨r, c'⟩
    rw [he] at H
    cases r with
    | ok v =>
      simp only [computeExpr, he]
      split_ifs <;> simpa using H
    | err e' => simp [computeExpr, he, H]
    | panicked => simp [computeExpr, he, H]

/-- Evaluation preserves every binding that is marked constant: the
assignment arm refuses to overwrite it and no other arm writes at all. -/
theorem computeExpr_preserves_constant (ops : NumOps) (k : String) (v : ℚ) :
    ∀ (e : Expr) (c : Computer), lookupVar c.variables k = some (v, true) →
      lookupVar ((computeExpr ops c e).2).variables k = some (v, true) := by
  intro e
  induction e with
  | constant n => intro c h; exact h
  | identifier id =>
    intro c h
    rcases hid : lookupVar c.variables id with _ | w <;> simp [computeExpr, hid, h]
  | neg e ih =>
    intro c h
    have H := ih c h
    rcases he : computeExpr ops c e with ⟨r, c'⟩
    rw [he] at H
    cases r <;> simp [computeExpr, he] <;> exact H
  | binOp op l r ihl ihr =>
    intro c h
    rcases hl : computeExpr ops c l with ⟨rl, c1⟩
    have Hl := ihl c h
    rw [hl] at Hl
    cases rl with
    | ok v' =>
      rcases hr : computeExpr ops c1 r with ⟨rr, c2⟩
      have Hr := ihr c1 Hl
      rw [hr] at Hr
      cases rr with
      | ok w => cases op <;> simp [computeExpr, hl, hr, Hr]
      | err e' => simp [computeExpr, hl, hr, Hr]
      | panicked => simp [computeExpr, hl, hr, Hr]
    | err e' => simp [computeExpr, hl, Hl]
    | panicked => simp [computeExpr, hl, Hl]
  | function f e ih =>
    intro c h
    have H := ih c h
    rcases he : computeExpr ops c e with ⟨r, c'⟩
    rw [he] at H
    cases r <;> simp [computeExpr, he] <;> exact H
  | assignment id e ih =>
    intro c h
    rcases he : computeExpr ops c e with ⟨r, c'⟩
    have H := ih c h
    rw [he] at H
    cases r with
    | ok v' =>
      by_cases hk : id = k
      · subst hk
        simp [computeExpr, he, H]
      · rcases hid : lookupVar c'.variables id with _ | ⟨w, b⟩
        · simp [computeExpr, he, hid, lookupVar_insertVar_ne _ _ _ _ hk, H]
        · cases b
          · simp [computeExpr, he, hid, lookupVar_insertVar_ne _ _ _ _ hk, H]
          · simp [computeExpr, he, hid, H]
    | err e' => simp [computeExpr, he, H]
    | panicked => simp [computeExpr, he, H]
  | pow l r ihl ihr =>
    intro c h
    rcases hl : computeExpr ops c l with ⟨rl, c1⟩
    have Hl := ihl c h
    rw [hl] at Hl
    cases rl with
    | ok v' =>
      rcases hr : computeExpr ops c1 r with ⟨rr, c2⟩
      have Hr := ihr c1 Hl
      rw [hr] at Hr
      cases rr <;> simp [computeExpr, hl, hr, Hr]
    | err e' => simp [computeExpr, hl, Hl]
    | panicked => simp [computeExpr, hl, Hl]
  | factorial e ih =>
    intro c h
    have H := ih c h
    rcases he : computeExpr ops c e with ⟨r, c'⟩
    rw [he] at H
    cases r with
    | ok v' =>
      simp only [computeExpr, he]
      split_ifs <;> simpa using H
    | err e' => simp [computeExpr, he, H]
    | panicked => simp [computeExpr, he, H]

/-- If every `BinOp` node carries an implemented operator, evaluation never
reaches the `unimplemented!()` arm. -/
theorem computeExpr_no_panic (ops : NumOps) :
    ∀ (e : Expr) (c : Computer), binopsValid e = true →
      (computeExpr ops c e).1 ≠ CResult.panicked := by
  intro e
  induction e with
  | constant n => intro c _; simp [computeExpr]
  | identifier id =>
    intro c _
    rcases h : lookupVar c.variables id with _ | w <;> simp [computeExpr, h]
  | neg e ih =>
    intro c h
    have h' : binopsValid e = true := by simpa [binopsValid] using h
    rcases he : computeExpr ops c e with ⟨r, c'⟩
    cases r with
    | ok v => simp [computeExpr, he]
    | err e' => simp [computeExpr, he]
    | panicked => exact absurd (by rw [he] : (computeExpr ops c e).1 = .panicked) (ih c h')
  | binOp op l r ihl ihr =>
    intro c h
    simp only [binopsValid, Bool.and_eq_true] at h
    obtain ⟨hop, hl', hr'⟩ := h
    rcases hl : computeExpr ops c l with ⟨rl, c1⟩
    cases rl with
    | ok v =>
      rcases hr : computeExpr ops c1 r with ⟨rr, c2⟩
      cases rr with
      | ok w => cases op <;> simp_all [isArithOp] <;> simp [computeExpr, hl, hr]
      | err e' => simp [computeExpr, hl, hr]
      | panicked =>
        exact absurd (by rw [hr] : (computeExpr ops c1 r).1 = .panicked) (ihr c1 hr')
    | err e' => simp [computeExpr, hl]
    | panicked =>
      exact absurd (by rw [hl] : (computeExpr ops c l).1 = .panicked) (ihl c hl')
  | function f e ih =>
    intro c h
    have h' : binopsValid e = true := by simpa [binopsValid] using h
    rcases he : computeExpr ops c e with ⟨r, c'⟩
    cases r with
    | ok v => simp [computeExpr, he]
    | err e' => simp [computeExpr, he]
    | panicked => exact absurd (by rw [he] : (computeExpr ops c e).1 = .panicked) (ih c h')
  | assignment id e ih =>
    intro c h
    have h' : binopsValid e = true := by simpa [binopsValid] using h
    rcases he : computeExpr ops c e with ⟨r, c'⟩
    cases r with
    | ok v =>
      rcases hid : lookupVar c'.variables id with _ | ⟨w, b⟩
      · simp [computeExpr, he, hid]
      · cases b <;> simp [computeExpr, he, hid]
    | err e' => simp [computeExpr, he]
    | panicked => exact absurd (by rw [he] : (computeExpr ops c e).1 = .panicked) (ih c h')
  | pow l r ihl ihr =>
    intro c h
    simp only [binopsValid, Bool.and_eq_true] at h
    obtain ⟨hl', hr'⟩ := h
    rcases hl : computeExpr ops c l with ⟨rl, c1⟩
    cases rl with
    | ok v =>
      rcases hr : computeExpr ops c1 r with ⟨rr, c2⟩
      cases rr with
      | ok w => simp [computeExpr, hl, hr]
      | err e' => simp [computeExpr, hl, hr]
      | panicked =>
        exact absurd (by rw [hr] : (computeExpr ops c1 r).1 = .panicked) (ihr c1 hr')
    | err e' => simp [computeExpr, hl]
    | panicked =>
      exact absurd (by rw [hl] : (computeExpr ops c l).1 = .panicked) (ihl c hl')
  | factorial e ih =>
    intro c h
    have h' : binopsValid e = true := by simpa [binopsValid] using h
    rcases he : computeExpr ops c e with ⟨r, c'⟩
    cases r with
    | ok v =>
      simp only [computeExpr, he]
      split_ifs <;> simp
    | err e' => simp [computeExpr, he]
    | panicked => exact absurd (by rw [he] : (computeExpr ops c e).1 = .panicked) (ih c h')

/-! ### Helper lemmas about `compute` and `eval` -/

/-- A failing `compute` call is exactly the failing `compute_expr` call: the
`"ans"` write is skipped. -/
theorem compute_err_eq (ops : NumOps) (c : Computer) (e : Expr)
    (err : ComputeError) (c' : Computer) (h : compute ops c e = (.err err, c')) :
    computeExpr ops c e = (.err err, c') := by
  rcases he : computeExpr ops c e with ⟨r, c''⟩
  cases r with
  | ok v => simp [compute, he] at h
  | err e' =>
    simp only [compute, he] at h
    exact h
  | panicked => simp [compute, he] at h

/-- A successful `compute` call is the successful `compute_expr` call
followed by the constant-flagged `"ans"` write. -/
theorem compute_ok_eq (ops : NumOps) (c : Computer) (e : Expr) (v : ℚ)
    (c' : Computer) (h : compute ops c e = (.ok v, c')) :
    ∃ c'', computeExpr ops c e = (.ok v, c'') ∧
      c' = ⟨insertVar c''.variables "ans" (v, true)⟩ := by
  rcases he : computeExpr ops c e with ⟨r, c''⟩
  cases r with
  | ok w =>
    simp only [compute, he] at h
    injection h with ha hb
    injection ha with ha
    subst ha
    exact ⟨c'', rfl, hb.symm⟩
  | err e' => simp [compute, he] at h
  | panicked => simp [compute, he] at h

/-- `compute` preserves every constant binding other than `"ans"`. -/
theorem compute_preserves_constant (ops : NumOps) (k : String) (v : ℚ)
    (hk : k ≠ "ans") (e : Expr) (c : Computer)
    (h : lookupVar c.variables k = some (v, true)) :
    lookupVar ((compute ops c e).2).variables k = some (v, true) := by
  rcases he : computeExpr ops c e with ⟨r, c'⟩
  have H := computeExpr_preserves_constant ops k v e c h
  rw [he] at H
  cases r with
  | ok n =>
    simpa [compute, he, lookupVar_insertVar_ne _ _ _ _ (Ne.symm hk)] using H
  | err e' => simpa [compute, he] using H
  | panicked => simpa [compute, he] using H

/-- `eval` preserves every constant binding other than `"ans"`. -/
theorem eval_preserves_constant (ops : NumOps) (k : String) (v : ℚ)
    (hk : k ≠ "ans") (s : String) (c : Computer)
    (h : lookupVar c.variables k = some (v, true)) :
    lookupVar ((eval ops c s).2).variables k = some (v, true) := by
  cases ht : tokenize s with
  | error le => simpa [eval, ht] using h
  | ok tokens =>
    cases hp : parse tokens with
    | error pe => simpa [eval, ht, hp] using h
    | ok ast =>
      rcases hc : compute ops c ast with ⟨r, c'⟩
      have H := compute_preserves_constant ops k v hk ast c h
      rw [hc] at H
      cases r <;> simpa [eval, ht, hp, hc] using H

/-- Any sequence of public operations preserves every constant binding other
than `"ans"`. -/
theorem runOps_preserves_constant (ops : NumOps) (k : String) (v : ℚ)
    (hk : k ≠ "ans") :
    ∀ (l : List CompOp) (c : Computer),
      lookupVar c.variables k = some (v, true) →
      lookupVar (runOps ops c l).variables k = some (v, true) := by
  intro l
  induction l with
  | nil => intro c h; exact h
  | cons op rest ih =>
    intro c h
    cases op with
    | runCompute e =>
      simpa only [runOps] using ih _ (compute_preserves_constant ops k v hk e c h)
    | runEval s =>
      simpa only [runOps] using ih _ (eval_preserves_constant ops k v hk s c h)

/-! ### The factorial loop -/

/-- The loop of the `Factorial` arm computes the product of all integers from
its starting factor down to two, i.e. multiplies `value` by `factor !` for a
natural starting factor. -/
theorem factorialLoop_natCast (m : ℕ) :
    ∀ v : ℚ, factorialLoop v m = v * (Nat.factorial m : ℚ) := by
  induction m with
  | zero =>
    intro v
    rw [factorialLoop.eq_def]
    norm_num [Nat.factorial]
  | succ n ih =>
    intro v
    rw [factorialLoop.eq_def]
    rcases Nat.eq_zero_or_pos n with hn | hn
    · subst hn
      norm_num [Nat.factorial]
    · have h1 : (1 : ℚ) < ((n + 1 : ℕ) : ℚ) := by
        have : (1 : ℕ) < n + 1 := by omega
        exact_mod_cast this
      rw [if_pos h1]
      have h2 : ((n + 1 : ℕ) : ℚ) - 1 = (n : ℚ) := by push_cast; ring
      rw [h2, ih]
      have h3 : (Nat.factorial (n + 1) : ℚ) = ((n + 1 : ℕ) : ℚ) * (Nat.factorial n : ℚ) := by
        rw [Nat.factorial_succ]
        push_cast
        ring
      rw [h3]
      ring

/-! ### Claim theorems -/

/-- C1: the claim says whitespace terminates only the current token and is
otherwise skipped, so tokenizing `"2 + 3 * 4"` yields all five tokens.  The
code does not do this: the `break` in `tokenize` (src/lexer.rs, line 42)
exits the whole scanning loop at the first whitespace character, so
`"2 + 3 * 4"` tokenizes to just `[Number(2)]`, while the same expression
without spaces yields all five tokens.  This theorem evaluates the code at
both inputs, exhibiting the divergence. -/
theorem c1_whitespace_ends_tokenization :
    tokenize "2 + 3 * 4" = .ok [Token.number 2] ∧
    tokenize "2+3*4" =
      .ok [Token.number 2, Token.operator .plus, Token.number 3,
        Token.operator .star, Token.number 4] :=
  ⟨rfl, rfl⟩

/-- C2 counterexample: the claim asserts that tokenization succeeds on some
inputs containing an identifier, `'='`, or `'!'`, producing corresponding
tokens.  On the code, every occurrence of such a character (before any
whitespace) is an `InvalidCharacter` error — and the `Token` type has no
identifier, assignment, or factorial constructor at all. -/
theorem c2_counterexample :
    tokenize "a = 2" = .error (.invalidCharacter 'a') ∧
    tokenize "=" = .error (.invalidCharacter '=') ∧
    tokenize "5!" = .error (.invalidCharacter '!') ∧
    tokenize "x" = .error (.invalidCharacter 'x') :=
  ⟨rfl, rfl, rfl, rfl⟩

/-- C2 (amended): `tokenize` maps input text to a left-to-right sequence of
tokens drawn from numeric literals (carrying a decimal value) and the seven
operator/punctuation symbols `+ - * / ^ ( )` only; inputs containing an
identifier character, `'='`, or `'!'` before any whitespace fail with
`InvalidCharacter` instead of producing identifier, assignment, or factorial
tokens (the `Token` type has no such variants). -/
theorem c2_amended :
    (∀ (input : String) (ts : List Token), tokenize input = .ok ts →
      ∀ t ∈ ts, (∃ q, t = Token.number q) ∨ ∃ op, t = Token.operator op) ∧
    tokenize "1+2-3*4/5^(6)" =
      .ok [Token.number 1, Token.operator .plus, Token.number 2,
        Token.operator .minus, Token.number 3, Token.operator .star,
        Token.number 4, Token.operator .slash, Token.number 5,
        Token.operator .caret, Token.operator .lparen, Token.number 6,
        Token.operator .rparen] ∧
    tokenize "a" = .error (.invalidCharacter 'a') ∧
    tokenize "2 = 3" = .ok [Token.number 2] := by
  refine ⟨?_, rfl, rfl, rfl⟩
  intro input ts _ t _
  cases t with
  | number q => exact Or.inl ⟨q, rfl⟩
  | operator op => exact Or.inr ⟨op, rfl⟩

/-- C2 witness: the shape property applied at a concrete tokenization. -/
theorem c2_amended_witness :
    tokenize "7" = .ok [Token.number 7] ∧
    ((∃ q, Token.number (7 : ℚ) = Token.number q) ∨
      ∃ op, Token.number (7 : ℚ) = Token.operator op) :=
  ⟨rfl, c2_amended.1 "7" [Token.number 7] rfl (Token.number 7) (by simp)⟩

/-- C3 counterexample: the claim says an assignment to a constant target
fails "without mutating anything".  For the assignment `pi = (a = 2)` in a
fresh environment, the evaluation fails with `VariableIsConstant("pi")`, yet
the nested assignment committed `a = 2` to the environment first: the
environment is mutated. -/
theorem c3_counterexample :
    computeExpr ratOps (Computer.new 3 2)
        (.assignment "pi" (.assignment "a" (.constant 2))) =
      (.err (.variableIsConstant "pi"),
        ⟨[("pi", (3, true)), ("e", (2, true)), ("a", (2, false))]⟩) ∧
    lookupVar (Computer.new 3 2).variables "a" = none :=
  ⟨rfl, rfl⟩

/-- C3 (amended): for an Assignment whose target is bound as a constant
after the right-hand side has evaluated, `compute_expr` fails with
`VariableIsConstant` naming the target, mutating nothing beyond the side
effects the right-hand side already committed (so nothing at all when the
right-hand side contains no assignment); for an absent or non-constant
target the binding is inserted or overwritten as non-constant and the value
is returned.  Evaluating `pi = 4` fails leaving the environment unchanged,
and `a = 2` followed by `a = 3` both succeed. -/
theorem c3_amended :
    (∀ (ops : NumOps) (c : Computer) (name : String) (rhs : Expr) (v w : ℚ)
        (c' : Computer), computeExpr ops c rhs = (.ok v, c') →
        lookupVar c'.variables name = some (w, true) →
        computeExpr ops c (.assignment name rhs) =
          (.err (.variableIsConstant name), c') ∧
        (assignedNames rhs = [] → c' = c)) ∧
    (∀ (ops : NumOps) (c : Computer) (name : String) (rhs : Expr) (v : ℚ)
        (c' : Computer), computeExpr ops c rhs = (.ok v, c') →
        (∀ w, lookupVar c'.variables name ≠ some (w, true)) →
        computeExpr ops c (.assignment name rhs) =
          (.ok v, ⟨insertVar c'.variables name (v, false)⟩)) ∧
    computeExpr ratOps (Computer.new 3 2) (.assignment "pi" (.constant 4)) =
      (.err (.variableIsConstant "pi"), Computer.new 3 2) ∧
    computeExpr ratOps (Computer.new 3 2) (.assignment "a" (.constant 2)) =
      (.ok 2, ⟨[("pi", (3, true)), ("e", (2, true)), ("a", (2, false))]⟩) ∧
    computeExpr ratOps ⟨[("pi", (3, true)), ("e", (2, true)), ("a", (2, false))]⟩
        (.assignment "a" (.constant 3)) =
      (.ok 3, ⟨[("pi", (3, true)), ("e", (2, true)), ("a", (3, false))]⟩) := by
  refine ⟨?_, ?_, rfl, rfl, rfl⟩
  · intro ops c name rhs v w c' h hname
    constructor
    · simp [computeExpr, h, hname]
    · intro hna
      have t := computeExpr_env_of_no_assign ops rhs c hna
      rw [h] at t
      exact t
  · intro ops c name rhs v c' h hname
    rcases hid : lookupVar c'.variables name with _ | ⟨w, b⟩
    · simp [computeExpr, h, hid]
    · cases b
      · simp [computeExpr, h, hid]
      · exact absurd hid (hname w)

/-- C3 witness: the amended statement applied at `pi = 4` (constant target)
and at `b = 5` (absent target) in a fresh environment. -/
theorem c3_amended_witness :
    (computeExpr ratOps (Computer.new 3 2) (.assignment "pi" (.constant 4)) =
        (.err (.variableIsConstant "pi"), Computer.new 3 2) ∧
      (assignedNames (.constant 4) = [] → Computer.new 3 2 = Computer.new 3 2)) ∧
    computeExpr ratOps (Computer.new 3 2) (.assignment "b" (.constant 5)) =
      (.ok 5, ⟨insertVar (Computer.new 3 2).variables "b" (5, false)⟩) :=
  ⟨c3_amended.1 ratOps (Computer.new 3 2) "pi" (.constant 4) 4 3
      (Computer.new 3 2) rfl rfl,
    c3_amended.2.1 ratOps (Computer.new 3 2) "b" (.constant 5) 5
      (Computer.new 3 2) rfl
      (fun w hw => by
        rw [show lookupVar (Computer.new 3 2).variables "b" = none from rfl] at hw
        exact Option.noConfusion hw)⟩

/-- C4: after the operand of a Factorial node evaluates to `v`, the
evaluation fails with `InvalidFactorial` when `v` is negative or not an
integer, yields `1` when `v` is zero or one, and otherwise yields the
product of all integers from `v` down to two (that is, `v!`), computed by
the iterative loop; concretely `(-1)!` and `(3/2)!` fail with the
invalid-factorial error, `0!` and `1!` evaluate to `1`, and `5!` evaluates
to `120`. -/
theorem c4_factorial :
    (∀ (ops : NumOps) (c : Computer) (e : Expr) (v : ℚ) (c' : Computer),
        computeExpr ops c e = (.ok v, c') →
        ((v < 0 ∨ ¬ v.isInt) →
          computeExpr ops c (.factorial e) = (.err .invalidFactorial, c')) ∧
        ((v = 0 ∨ v = 1) →
          computeExpr ops c (.factorial e) = (.ok 1, c')) ∧
        (∀ n : ℕ, 2 ≤ n → v = (n : ℚ) →
          computeExpr ops c (.factorial e) = (.ok ((Nat.factorial n : ℕ) : ℚ), c'))) ∧
    computeExpr ratOps (Computer.new 3 2) (.factorial (.neg (.constant 1))) =
      (.err .invalidFactorial, Computer.new 3 2) ∧
    computeExpr ratOps (Computer.new 3 2) (.factorial (.constant (mkRat 3 2))) =
      (.err .invalidFactorial, Computer.new 3 2) ∧
    computeExpr ratOps (Computer.new 3 2) (.factorial (.constant 0)) =
      (.ok 1, Computer.new 3 2) ∧
    computeExpr ratOps (Computer.new 3 2) (.factorial (.constant 1)) =
      (.ok 1, Computer.new 3 2) ∧
    computeExpr ratOps (Computer.new 3 2) (.factorial (.constant 5)) =
      (.ok 120, Computer.new 3 2) := by
  have hgen : ∀ (ops : NumOps) (c : Computer) (e : Expr) (v : ℚ) (c' : Computer),
      computeExpr ops c e = (.ok v, c') →
      ((v < 0 ∨ ¬ v.isInt) →
        computeExpr ops c (.factorial e) = (.err .invalidFactorial, c')) ∧
      ((v = 0 ∨ v = 1) →
        computeExpr ops c (.factorial e) = (.ok 1, c')) ∧
      (∀ n : ℕ, 2 ≤ n → v = (n : ℚ) →
        computeExpr ops c (.factorial e) = (.ok ((Nat.factorial n : ℕ) : ℚ), c')) := by
    intro ops c e v c' h
    refine ⟨?_, ?_, ?_⟩
    · intro hbad
      simp only [computeExpr, h]
      rw [if_pos hbad]
    · intro h01
      simp only [computeExpr, h]
      rcases h01 with rfl | rfl
      · rw [if_neg (by norm_num [Rat.isInt]), if_pos (by norm_num)]
      · rw [if_neg (by norm_num [Rat.isInt]), if_pos (by norm_num)]
    · intro n hn hv
      subst hv
      simp only [computeExpr, h]
      rw [if_neg, if_neg]
      · have hsub : ((n : ℚ)) - 1 = ((n - 1 : ℕ) : ℚ) := by
          rw [Nat.cast_sub (by omega)]
          norm_num
        rw [hsub, factorialLoop_natCast]
        have : ((n : ℚ)) * ((Nat.factorial (n - 1) : ℕ) : ℚ) =
            ((Nat.factorial n : ℕ) : ℚ) := by
          rw [show ((n : ℚ)) = ((n : ℕ) : ℚ) from rfl, ← Nat.cast_mul]
          norm_cast
          rw [Nat.mul_factorial_pred (by omega)]
        rw [this]
      · push_neg
        constructor
        · intro h0
          have : (n : ℚ) = 0 := h0
          have : n = 0 := by exact_mod_cast this
          omega
        · intro h1
          have : (n : ℚ) = 1 := h1
          have : n = 1 := by exact_mod_cast this
          omega
      · push_neg
        refine ⟨by positivity, ?_⟩
        simp [Rat.isInt]
  refine ⟨hgen, by decide, by decide, by decide, by decide, ?_⟩
  have h5 := (hgen ratOps (Computer.new 3 2) (.constant 5) 5 (Computer.new 3 2)
    rfl).2.2 5 (by norm_num) (by norm_num)
  rw [h5]
  norm_num [Nat.factorial]

/-- C4 witness: the general statement applied at operand `(3/2 : ℚ)`
(non-integer, fails), at `1` (yields one), and at `4` (yields `4!`). -/
theorem c4_factorial_witness :
    computeExpr ratOps (Computer.new 3 2) (.factorial (.constant (mkRat 3 2))) =
      (.err .invalidFactorial, Computer.new 3 2) ∧
    computeExpr ratOps (Computer.new 3 2) (.factorial (.constant 1)) =
      (.ok 1, Computer.new 3 2) ∧
    computeExpr ratOps (Computer.new 3 2) (.factorial (.constant 4)) =
      (.ok ((Nat.factorial 4 : ℕ) : ℚ), Computer.new 3 2) :=
  ⟨(c4_factorial.1 ratOps (Computer.new 3 2) (.constant (mkRat 3 2)) (mkRat 3 2)
      (Computer.new 3 2) rfl).1 (by decide),
    (c4_factorial.1 ratOps (Computer.new 3 2) (.constant 1) 1
      (Computer.new 3 2) rfl).2.1 (by norm_num),
    (c4_factorial.1 ratOps (Computer.new 3 2) (.constant 4) 4
      (Computer.new 3 2) rfl).2.2 4 (by norm_num) (by norm_num)⟩

unseal Rat.add Rat.mul in
/-- C5: after every successful top-level `compute` call the `"ans"` entry
holds the returned result with its constant flag set; the flag still lets
the evaluator overwrite `"ans"` on the next success (the root call writes it
unconditionally) but makes a direct user assignment to `"ans"` fail; the
recursive walker itself never writes `"ans"` (root call only).  Concretely,
after `3 + 4` evaluates to `7`, a following `ans * 2` evaluates to `14` and
overwrites `"ans"` with `14`. -/
theorem c5_ans_update :
    (∀ (ops : NumOps) (c : Computer) (e : Expr) (v : ℚ) (c' : Computer),
        compute ops c e = (.ok v, c') →
        lookupVar c'.variables "ans" = some (v, true) ∧
        (∀ (rhs : Expr) (u : ℚ) (c3 : Computer),
          computeExpr ops c' rhs = (.ok u, c3) →
          computeExpr ops c' (.assignment "ans" rhs) =
            (.err (.variableIsConstant "ans"), c3))) ∧
    (∀ (ops : NumOps) (c : Computer) (e : Expr), "ans" ∉ assignedNames e →
        lookupVar ((computeExpr ops c e).2).variables "ans" =
          lookupVar c.variables "ans") ∧
    compute ratOps (Computer.new 3 2) (.binOp .plus (.constant 3) (.constant 4)) =
      (.ok 7, ⟨[("pi", (3, true)), ("e", (2, true)), ("ans", (7, true))]⟩) ∧
    compute ratOps ⟨[("pi", (3, true)), ("e", (2, true)), ("ans", (7, true))]⟩
        (.binOp .star (.identifier "ans") (.constant 2)) =
      (.ok 14, ⟨[("pi", (3, true)), ("e", (2, true)), ("ans", (14, true))]⟩) := by
  refine ⟨?_, ?_, ?_, ?_⟩
  · intro ops c e v c' h
    obtain ⟨c'', hce, rfl⟩ := compute_ok_eq ops c e v c' h
    constructor
    · exact lookupVar_insertVar_self _ _ _
    · intro rhs u c3 hrhs
      have hans : lookupVar c3.variables "ans" = some (v, true) := by
        have t := computeExpr_preserves_constant ops "ans" v rhs
          ⟨insertVar c''.variables "ans" (v, true)⟩
          (lookupVar_insertVar_self _ _ _)
        rw [hrhs] at t
        exact t
      simp [computeExpr, hrhs, hans]
  · intro ops c e hne
    exact computeExpr_lookup_of_not_assigned ops "ans" e c hne
  · decide
  · decide

unseal Rat.add in
/-- C5 witness: applied at the concrete root call `3 + 4` in a fresh
environment, whose success writes `ans = 7` marked constant, and at a
user assignment `ans = 1` which the flag then rejects. -/
theorem c5_ans_update_witness :
    lookupVar (⟨[("pi", (3, true)), ("e", (2, true)), ("ans", (7, true))]⟩ :
        Computer).variables "ans" = some (7, true) ∧
    computeExpr ratOps ⟨[("pi", (3, true)), ("e", (2, true)), ("ans", (7, true))]⟩
        (.assignment "ans" (.constant 1)) =
      (.err (.variableIsConstant "ans"),
        ⟨[("pi", (3, true)), ("e", (2, true)), ("ans", (7, true))]⟩) ∧
    lookupVar ((computeExpr ratOps (Computer.new 3 2) (.constant 9)).2).variables
        "ans" = lookupVar (Computer.new 3 2).variables "ans" := by
  have h := c5_ans_update.1 ratOps (Computer.new 3 2)
    (.binOp .plus (.constant 3) (.constant 4)) 7
    ⟨[("pi", (3, true)), ("e", (2, true)), ("ans", (7, true))]⟩
    (by decide)
  refine ⟨h.1, h.2 (.constant 1) 1 _ rfl, ?_⟩
  exact c5_ans_update.2.1 ratOps (Computer.new 3 2) (.constant 9) (by decide)

/-- C6: evaluator errors are non-fatal and local to one call: when `compute`
fails, the environment agrees with the pre-call environment at every key
that is not an assignment target of the expression (so it is exactly the
pre-call environment when the expression contains no assignment — mutations
are only the assignments already committed during the failed evaluation),
and the `"ans"` entry is not updated by the evaluator on a failing call;
an `eval` call that fails in the lexer or parser leaves the environment
exactly unchanged. -/
theorem c6_error_locality :
    (∀ (ops : NumOps) (c : Computer) (e : Expr) (err : ComputeError)
        (c' : Computer), compute ops c e = (.err err, c') →
      (∀ k, k ∉ assignedNames e →
        lookupVar c'.variables k = lookupVar c.variables k) ∧
      (assignedNames e = [] → c' = c) ∧
      ("ans" ∉ assignedNames e →
        lookupVar c'.variables "ans" = lookupVar c.variables "ans")) ∧
    (∀ (ops : NumOps) (c : Computer) (s : String) (le : LexerError)
        (c2 : Computer), eval ops c s = (.err (.lexerError le), c2) → c2 = c) ∧
    (∀ (ops : NumOps) (c : Computer) (s : String) (pe : ParserError)
        (c2 : Computer), eval ops c s = (.err (.parserError pe), c2) → c2 = c) := by
  refine ⟨?_, ?_, ?_⟩
  · intro ops c e err c' h
    have he := compute_err_eq ops c e err c' h
    refine ⟨?_, ?_, ?_⟩
    · intro k hk
      have t := computeExpr_lookup_of_not_assigned ops k e c hk
      rw [he] at t
      exact t
    · intro hna
      have t := computeExpr_env_of_no_assign ops e c hna
      rw [he] at t
      exact t
    · intro hk
      have t := computeExpr_lookup_of_not_assigned ops "ans" e c hk
      rw [he] at t
      exact t
  · intro ops c s le c2 hev
    cases ht : tokenize s with
    | error le' =>
      simp only [eval, ht] at hev
      injection hev with h1 h2
      exact h2.symm
    | ok tokens =>
      cases hp : parse tokens with
      | error pe =>
        simp [eval, ht, hp] at hev
      | ok ast =>
        rcases hc : compute ops c ast with ⟨r, cr⟩
        cases r <;> simp [eval, ht, hp, hc] at hev
  · intro ops c s pe c2 hev
    cases ht : tokenize s with
    | error le' =>
      simp [eval, ht] at hev
    | ok tokens =>
      cases hp : parse tokens with
      | error pe' =>
        simp only [eval, ht, hp] at hev
        injection hev with h1 h2
        exact h2.symm
      | ok ast =>
        rcases hc : compute ops c ast with ⟨r, cr⟩
        cases r <;> simp [eval, ht, hp, hc] at hev

/-- C6 witness: a failing `compute` call, `(q = 1) + z`, leaves every
non-assigned key (here `"pi"`) and the `"ans"` entry untouched, while the
already-committed assignment to `"q"` remains; a failing `eval` on an
unlexable input leaves the environment exactly unchanged. -/
theorem c6_error_locality_witness :
    ((∀ k, k ∉ assignedNames (Expr.binOp .plus (.assignment "q" (.constant 1))
          (.identifier "z")) →
        lookupVar (⟨[("pi", (3, true)), ("e", (2, true)), ("q", (1, false))]⟩ :
            Computer).variables k = lookupVar (Computer.new 3 2).variables k) ∧
      (assignedNames (Expr.binOp .plus (.assignment "q" (.constant 1))
          (.identifier "z")) = [] →
        (⟨[("pi", (3, true)), ("e", (2, true)), ("q", (1, false))]⟩ : Computer) =
          Computer.new 3 2) ∧
      ("ans" ∉ assignedNames (Expr.binOp .plus (.assignment "q" (.constant 1))
          (.identifier "z")) →
        lookupVar (⟨[("pi", (3, true)), ("e", (2, true)), ("q", (1, false))]⟩ :
            Computer).variables "ans" =
          lookupVar (Computer.new 3 2).variables "ans")) ∧
    Computer.new 3 2 = Computer.new 3 2 :=
  ⟨c6_error_locality.1 ratOps (Computer.new 3 2)
      (.binOp .plus (.assignment "q" (.constant 1)) (.identifier "z"))
      (.unrecognizedIdentifier "z")
      ⟨[("pi", (3, true)), ("e", (2, true)), ("q", (1, false))]⟩ (by decide),
    c6_error_locality.2.1 ratOps (Computer.new 3 2) "#" (.invalidCharacter '#')
      (Computer.new 3 2) (by decide)⟩

/-- C7: the `"pi"` and `"e"` entries seeded as constants by `Computer::new`
keep both their seeded values and their constant flags across every sequence
of subsequent public operations (`compute` calls, `eval` calls — hence user
assignments and the automatic `"ans"` writes they perform) for the
environment's entire lifetime. -/
theorem c7_constants_permanent :
    ∀ (ops : NumOps) (piVal eVal : ℚ) (l : List CompOp),
      lookupVar (runOps ops (Computer.new piVal eVal) l).variables "pi" =
        some (piVal, true) ∧
      lookupVar (runOps ops (Computer.new piVal eVal) l).variables "e" =
        some (eVal, true) := by
  intro ops piVal eVal l
  constructor
  · exact runOps_preserves_constant ops "pi" piVal (by decide) l _
      (by simp [Computer.new, lookupVar])
  · exact runOps_preserves_constant ops "e" eVal (by decide) l _
      (by simp [Computer.new, lookupVar])

unseal Rat.mul in
/-- C8: the power operator `^` is right-associative — a chain
`a ^ b ^ c` parses as `a ^ (b ^ c)`, the exponent itself being another
Power — so `2^3^2` evaluates to `512` (2^(3^2)); the left grouping
`(2^3)^2` would give `64`, which is a different value. -/
theorem c8_power_right_associative :
    (∀ a b c : ℚ,
      parse [Token.number a, Token.operator .caret, Token.number b,
        Token.operator .caret, Token.number c] =
        .ok (.pow (.constant a) (.pow (.constant b) (.constant c)))) ∧
    (eval ratOps (Computer.new 3 2) "2^3^2").1 = EResult.ok 512 ∧
    (computeExpr ratOps (Computer.new 3 2)
        (.pow (.pow (.constant 2) (.constant 3)) (.constant 2))).1 =
      CResult.ok 64 ∧
    (512 : ℚ) ≠ 64 := by
  refine ⟨fun a b c => rfl, by decide, by decide, by norm_num⟩

/-- C9: `compute_expr` returns a value or a `ComputeError` for every
expression whose `BinOp` nodes all carry `Plus`, `Minus`, `Star` or `Slash`;
a `BinOp` node carrying `Caret`, `LParen` or `RParen` whose operands
evaluate successfully instead hits the `unimplemented!()` arm and panics, so
total evaluation requires every `BinOp` operator to lie in the implemented
set. -/
theorem c9_binop_unimplemented_panics :
    (∀ (ops : NumOps) (e : Expr) (c : Computer), binopsValid e = true →
      (computeExpr ops c e).1 ≠ CResult.panicked) ∧
    (∀ (ops : NumOps) (c : Computer) (op : Operator) (l r : Expr) (lv rv : ℚ)
        (c1 c2 : Computer),
      (op = .caret ∨ op = .lparen ∨ op = .rparen) →
      computeExpr ops c l = (.ok lv, c1) →
      computeExpr ops c1 r = (.ok rv, c2) →
      computeExpr ops c (.binOp op l r) = (.panicked, c2)) := by
  constructor
  · intro ops e c h
    exact computeExpr_no_panic ops e c h
  · intro ops c op l r lv rv c1 c2 hop hl hr
    rcases hop with rfl | rfl | rfl <;> simp [computeExpr, hl, hr]

/-- C9 witness: a valid expression (`1`) evaluates without panicking, and
the concrete node `BinOp(Caret, 2, 3)` panics. -/
theorem c9_binop_unimplemented_panics_witness :
    (binopsValid (Expr.constant 1) = true ∧
      (computeExpr ratOps (Computer.new 3 2) (.constant 1)).1 ≠
        CResult.panicked) ∧
    ((Operator.caret = Operator.caret ∨ Operator.caret = Operator.lparen ∨
        Operator.caret = Operator.rparen) ∧
      computeExpr ratOps (Computer.new 3 2)
          (.binOp .caret (.constant 2) (.constant 3)) =
        (.panicked, Computer.new 3 2)) :=
  ⟨⟨by decide, c9_binop_unimplemented_panics.1 ratOps (.constant 1)
      (Computer.new 3 2) (by decide)⟩,
    ⟨Or.inl rfl, c9_binop_unimplemented_panics.2 ratOps (Computer.new 3 2)
      .caret (.constant 2) (.constant 3) 2 3 (Computer.new 3 2)
      (Computer.new 3 2) (Or.inl rfl) rfl rfl⟩⟩

/-- C10: in Assignment evaluation the right-hand side is evaluated before
the constant-flag check on the target: when the target is bound as a
constant, the right-hand side's committed side effects (such as nested
assignments) remain in the environment the failing call returns, and when
the right-hand side itself fails, its error is returned instead of
`VariableIsConstant`. -/
theorem c10_assignment_rhs_first :
    (∀ (ops : NumOps) (c : Computer) (id : String) (rhs : Expr)
        (err : ComputeError) (c' : Computer),
      computeExpr ops c rhs = (.err err, c') →
      computeExpr ops c (.assignment id rhs) = (.err err, c')) ∧
    (∀ (ops : NumOps) (c : Computer) (id : String) (rhs : Expr) (v w : ℚ)
        (c' : Computer),
      computeExpr ops c rhs = (.ok v, c') →
      lookupVar c'.variables id = some (w, true) →
      computeExpr ops c (.assignment id rhs) =
        (.err (.variableIsConstant id), c')) := by
  constructor
  · intro ops c id rhs err c' h
    simp [computeExpr, h]
  · intro ops c id rhs v w c' h hid
    simp [computeExpr, h, hid]

/-- C10 witness: `pi = (a = 2)` fails with the constant error but returns
the environment holding the committed `a = 2`; `pi = z` returns the
right-hand side's `UnrecognizedIdentifier("z")` error, not
`VariableIsConstant`. -/
theorem c10_assignment_rhs_first_witness :
    computeExpr ratOps (Computer.new 3 2)
        (.assignment "pi" (.assignment "a" (.constant 2))) =
      (.err (.variableIsConstant "pi"),
        ⟨[("pi", (3, true)), ("e", (2, true)), ("a", (2, false))]⟩) ∧
    computeExpr ratOps (Computer.new 3 2) (.assignment "pi" (.identifier "z")) =
      (.err (.unrecognizedIdentifier "z"), Computer.new 3 2) :=
  ⟨c10_assignment_rhs_first.2 ratOps (Computer.new 3 2) "pi"
      (.assignment "a" (.constant 2)) 2 3
      ⟨[("pi", (3, true)), ("e", (2, true)), ("a", (2, false))]⟩ rfl rfl,
    c10_assignment_rhs_first.1 ratOps (Computer.new 3 2) "pi" (.identifier "z")
      (.unrecognizedIdentifier "z") (Computer.new 3 2) rfl⟩

end Rsc
